import Mathlib

set_option autoImplicit false

/-
Shallow embedding of the maboroshi music player's orchestration layer
(src/app.rs, src/audio.rs, src/player.rs, src/config.rs).

Modelling conventions:
* `u64` / `usize` counters are `Nat` (`saturating_add` is modelled explicitly);
* `SystemTime` instants are `Nat` nanoseconds since the epoch;
  `Duration::as_secs` is nanosecond division by `10^9`;
* `f64` progress values (only ever written as `0.0` or copied in the code
  modelled here) are `Rat`;
* `HashMap` caches are association lists `List (key × value)` with no
  duplicate keys; `HashMap::insert` replaces in place, `keys().min()` /
  `min_by_key` pick a minimal element (first of ties in list order — the
  real map's iteration order is arbitrary, so theorems only use minimality);
* the `tokio` tasks' shared-state mutations are explicit state-passing
  functions; the pattern `if !app.is_active_request(id) { return } …` is
  the combinator `complete_if_active`.
-/

namespace Maboroshi

/-- PauseState from src/audio.rs (lines 43-48). -/
inductive PauseState where
  | Paused
  | Playing
  | Stopped
  deriving DecidableEq, Repr

/-- PlayerStatus from src/app.rs (lines 8-16). -/
inductive PlayerStatus where
  | Waiting
  | Searching
  | SearchResults
  | Playing
  | Paused
  | Error (msg : String)
  deriving DecidableEq, Repr

/-- PlayMode from src/app.rs (lines 18-24). -/
inductive PlayMode where
  | Single
  | ListLoop
  | Sequential
  | Shuffle
  deriving DecidableEq, Repr

/-- SearchResult from src/audio.rs (lines 38-41). -/
structure SearchResult where
  title : String
  deriving DecidableEq, Repr

/-- FavoriteItem from src/app.rs (lines 26-30). -/
structure FavoriteItem where
  title : String
  source : String
  deriving DecidableEq, Repr

/-- PlaybackState from src/audio.rs (lines 31-36): the playback mirror kept in
sync by the IPC listener task. `progress` is an `f64` fraction in the source,
`volume` a `u8` in 0–130. -/
structure PlaybackState where
  progress : Rat
  pause_state : PauseState
  volume : Nat
  deriving DecidableEq, Repr

/-- Mirror initialisation performed just before the IPC listener task is
spawned, src/audio.rs lines 342-346: `state.progress = 0.0;
state.pause_state = PauseState::Playing;` (volume untouched). -/
def listener_start_reset (s : PlaybackState) : PlaybackState :=
  { s with progress := 0, pause_state := PauseState.Playing }

/-- Mirror update performed when the IPC listener task terminates (end of
stream, connection failure, or loop exit), src/audio.rs lines 407-409:
`state.pause_state = PauseState::Stopped;` (progress and volume untouched). -/
def listener_exit_reset (s : PlaybackState) : PlaybackState :=
  { s with pause_state := PauseState.Stopped }

/-- Mirror reset performed by `AudioBackend::quit`, src/audio.rs lines
471-475: `state.pause_state = PauseState::Stopped; state.progress = 0.0;`. -/
def quit_reset (s : PlaybackState) : PlaybackState :=
  { s with pause_state := PauseState.Stopped, progress := 0 }

/-- CachedSong from src/audio.rs (lines 15-19); `cached_at` is a `SystemTime`,
modelled as nanoseconds since the epoch. -/
structure CachedSong where
  url : String
  cached_at : Nat
  deriving DecidableEq, Repr

def NANOS_PER_SEC : Nat := 1000000000

/-- AudioBackend::is_cache_valid, src/audio.rs lines 70-76.
`SystemTime::duration_since` fails when `cached_at` is later than `now`
(then the entry counts as invalid); `Duration::as_secs` truncates to whole
seconds. -/
def is_cache_valid (url_cache_ttl now cached_at : Nat) : Bool :=
  if cached_at ≤ now then
    decide ((now - cached_at) / NANOS_PER_SEC < url_cache_ttl)
  else
    false

/-- The stream cache `HashMap<String, CachedSong>` of AudioBackend
(src/audio.rs line 23) as an association list. -/
abbrev StreamCache := List (String × CachedSong)

/-- `HashMap::get` on the stream cache. -/
def cache_find (cache : StreamCache) (keyword : String) : Option CachedSong :=
  (cache.find? (fun p => p.1 == keyword)).map Prod.snd

/-- The cache-check block at the start of `AudioBackend::search_and_play`,
src/audio.rs lines 208-217: under the cache lock,
`cache.get(keyword).and_then(|c| if is_cache_valid { Some(url) } else { None })`.
The block only reads the map, so the returned map is the input map. -/
def cache_lookup (url_cache_ttl now : Nat) (cache : StreamCache)
    (keyword : String) : Option String × StreamCache :=
  ((cache_find cache keyword).bind (fun c =>
      if is_cache_valid url_cache_ttl now c.cached_at then some c.url else none),
   cache)

/-- `HashMap::insert`: replace the value in place when the key is present,
otherwise add the entry. -/
def cache_insert_entry (cache : StreamCache) (keyword : String)
    (song : CachedSong) : StreamCache :=
  if cache.any (fun p => p.1 == keyword) then
    cache.map (fun p => if p.1 == keyword then (keyword, song) else p)
  else
    cache ++ [(keyword, song)]

/-- Helper for `min_by_key(|(_, v)| v.cached_at)`: fold keeping the entry with
the smaller `cached_at` (first of ties). -/
def min_entry (p : String × CachedSong) : StreamCache → String × CachedSong
  | [] => p
  | q :: rest => min_entry (if q.2.cached_at < p.2.cached_at then q else p) rest

/-- `cache.iter().min_by_key(|(_, v)| v.cached_at)` from src/audio.rs lines
281-284. -/
def oldest_entry : StreamCache → Option (String × CachedSong)
  | [] => none
  | p :: rest => some (min_entry p rest)

/-- The cache-write block of `AudioBackend::search_and_play`, src/audio.rs
lines 266-290: under the cache lock, re-check
`cache.get(keyword).map_or(true, |c| !is_cache_valid(c.cached_at))`; when the
re-check passes, insert `{url, cached_at: now}` and, if the map now exceeds
`url_cache_size`, remove the key of an entry with minimal `cached_at`. -/
def cache_write (url_cache_size url_cache_ttl now : Nat) (cache : StreamCache)
    (keyword url : String) : StreamCache :=
  if (cache_find cache keyword).all
      (fun c => !(is_cache_valid url_cache_ttl now c.cached_at)) then
    let inserted := cache_insert_entry cache keyword { url := url, cached_at := now }
    if url_cache_size < inserted.length then
      match oldest_entry inserted with
      | some q => inserted.eraseP (fun p => p.1 == q.1)
      | none => inserted
    else
      inserted
  else
    cache

/-- The page cache `HashMap<usize, Vec<SearchResult>>` of App
(src/app.rs line 55) as an association list. -/
abbrev PageCache := List (Nat × List SearchResult)

def MAX_CACHE_SIZE : Nat := 10

/-- `HashMap::insert` on the page cache. -/
def page_insert (cache : PageCache) (page : Nat)
    (results : List SearchResult) : PageCache :=
  if cache.any (fun p => p.1 == page) then
    cache.map (fun p => if p.1 == page then (page, results) else p)
  else
    cache ++ [(page, results)]

/-- `self.search_cache.keys().min()` from src/app.rs line 336. -/
def min_page : PageCache → Option Nat
  | [] => none
  | p :: rest =>
    match min_page rest with
    | none => some p.1
    | some m => some (min p.1 m)

/-- App::cache_page, src/app.rs lines 330-340: insert, then if the map holds
more than `MAX_CACHE_SIZE` entries remove the smallest page number. -/
def cache_page (cache : PageCache) (page : Nat)
    (results : List SearchResult) : PageCache :=
  let inserted := page_insert cache page results
  if MAX_CACHE_SIZE < inserted.length then
    match min_page inserted with
    | some m => inserted.eraseP (fun p => p.1 == m)
    | none => inserted
  else
    inserted

def U64_MAX : Nat := 2 ^ 64 - 1

/-- The App struct from src/app.rs (lines 37-60). `favorites_path` (pure
file-system data) is omitted; every other field is carried. -/
structure App where
  running : Bool
  status : PlayerStatus
  current_song : String
  progress : Rat
  logs : List String
  input_mode : Bool
  input_buffer : String
  favorites : List FavoriteItem
  selected_favorite : Nat
  play_mode : PlayMode
  search_results : List SearchResult
  selected_search_result : Nat
  saved_status : Option PlayerStatus
  current_source : String
  last_search_keyword : String
  current_page : Nat
  total_pages : Nat
  search_cache : PageCache
  is_loading_page : Bool
  request_seq : Nat
  active_request_id : Nat
  deriving DecidableEq, Repr

/-- App::new, src/app.rs lines 134-168, after the favorites file has been
read: `favorites` and the optional load warning are the outcome of that IO. -/
def app_new (favorites : List FavoriteItem) (load_warning : Option String) : App :=
  let logs₀ := ["应用启动"]
  let logs₁ := if favorites.isEmpty then logs₀
    else logs₀ ++ ["加载了 " ++ toString favorites.length ++ " 首收藏"]
  let logs₂ := match load_warning with
    | some warning => logs₁ ++ [warning]
    | none => logs₁
  { running := true
    status := PlayerStatus.Waiting
    current_song := ""
    progress := 0
    logs := logs₂
    input_mode := false
    input_buffer := ""
    favorites := favorites
    selected_favorite := 0
    play_mode := PlayMode.Shuffle
    search_results := []
    selected_search_result := 0
    saved_status := none
    current_source := "yt"
    last_search_keyword := ""
    current_page := 1
    total_pages := 1
    search_cache := []
    is_loading_page := false
    request_seq := 0
    active_request_id := 0 }

/-- The state of a fresh App with no favorites file present. -/
def initial_app : App := app_new [] none

/-- App::add_log, src/app.rs lines 171-180: drop the message when it equals
the most recent log line; otherwise push it and, if the queue now holds more
than 50 lines, pop the oldest. -/
def add_log (a : App) (message : String) : App :=
  if a.logs.getLast? == some message then
    a
  else
    let logs := a.logs ++ [message]
    if 50 < logs.length then { a with logs := logs.tail }
    else { a with logs := logs }

/-- App::begin_async_request, src/app.rs lines 315-320:
`request_seq = request_seq.saturating_add(1)` (saturation at `u64::MAX`),
record it as the active id, reset the page loading flag, return the id. -/
def begin_async_request (a : App) : Nat × App :=
  let seq := min (a.request_seq + 1) U64_MAX
  (seq, { a with request_seq := seq, active_request_id := seq,
                 is_loading_page := false })

/-- App::is_active_request, src/app.rs lines 322-324. -/
def is_active_request (a : App) (request_id : Nat) : Bool :=
  a.active_request_id == request_id

/-- The guard pattern shared by every asynchronous task body in
src/player.rs (search lines 75-101, play_selected_result lines 119-159,
search_and_play lines 176-204, search_page lines 416-459): take the App lock
and, `if !a.is_active_request(request_id) { return }`, otherwise apply the
task's mutations. -/
def complete_if_active (request_id : Nat) (apply : App → App) (a : App) : App :=
  if is_active_request a request_id then apply a else a

/-- `n` successive `begin_async_request` calls. -/
def run_begins (a : App) : Nat → App
  | 0 => a
  | n + 1 => (begin_async_request (run_begins a n)).2

/-- The request ids handed out by `n` successive `begin_async_request`
calls, in order. -/
def issued_ids (a : App) : Nat → List Nat
  | 0 => []
  | n + 1 => issued_ids a n ++ [(begin_async_request (run_begins a n)).1]

/-- `Iterator::position` over the favorites list (src/app.rs uses
`self.favorites.iter().position(|item| item.title == …)`). -/
def position (p : FavoriteItem → Bool) : List FavoriteItem → Option Nat
  | [] => none
  | x :: xs => if p x then some 0 else (position p xs).map (· + 1)

/-- Title of the favorite at an index (`self.favorites[idx].title`; the
source indexes directly, always in bounds at its call sites). -/
def titleAt (favorites : List FavoriteItem) (idx : Nat) : Option String :=
  (favorites[idx]?).map FavoriteItem.title

/-- App::simple_random, src/app.rs lines 403-409: subsecond nanoseconds of
the current time, modulo `max`. The nanosecond reading is the parameter. -/
def simple_random (nanos max : Nat) : Nat :=
  nanos % max

/-- App::get_next_song, src/app.rs lines 411-475. `r1` and `r2` are the two
nanosecond readings the Shuffle arm may draw (the source calls
`simple_random` twice; the first draw is dead when the current song is
found). Returns the chosen title together with the updated App
(`selected_favorite` and log mutations). -/
def get_next_song (r1 r2 : Nat) (a : App) : Option String × App :=
  match a.play_mode with
  | PlayMode.Single =>
    if a.current_song == "" then (none, a) else (some a.current_song, a)
  | PlayMode.Shuffle =>
    if a.favorites.isEmpty then (none, a)
    else if a.favorites.length == 1 then
      (titleAt a.favorites 0, { a with selected_favorite := 0 })
    else
      let idx₀ := simple_random r1 a.favorites.length
      let idx :=
        match position (fun item => item.title == a.current_song) a.favorites with
        | some current_idx =>
          let j := simple_random r2 (a.favorites.length - 1)
          if current_idx ≤ j then j + 1 else j
        | none => idx₀
      (titleAt a.favorites idx, { a with selected_favorite := idx })
  | PlayMode.ListLoop | PlayMode.Sequential =>
    if a.favorites.isEmpty then (none, a)
    else
      match position (fun item => item.title == a.current_song) a.favorites with
      | some current_idx =>
        let next_idx := current_idx + 1
        if next_idx < a.favorites.length then
          (titleAt a.favorites next_idx, { a with selected_favorite := next_idx })
        else if a.play_mode == PlayMode.ListLoop then
          (titleAt a.favorites 0,
           { add_log a "列表循环，回到第一首" with selected_favorite := 0 })
        else
          (none, a)
      | none =>
        (none, add_log a ("当前歌曲 '" ++ a.current_song ++ "' 不在收藏列表中"))

/-- App::set_search_results, src/app.rs lines 298-305. -/
def set_search_results (a : App) (results : List SearchResult)
    (keyword : String) : App :=
  let a' := { a with search_results := results, selected_search_result := 0,
                     last_search_keyword := keyword }
  if a'.search_results.isEmpty then a'
  else { a' with status := PlayerStatus.SearchResults }

/-- The `Ok(results)` arm of the page-fetch task in `Player::search_page`,
src/player.rs lines 426-449, as the mutation applied to the locked App once
the id-currency check has passed. -/
def search_page_apply (page page_size : Nat) (keyword : String)
    (results : List SearchResult) (a : App) : App :=
  if results.isEmpty then
    let a' :=
      if 1 < page then
        add_log { a with total_pages := page - 1 }
          ("已到达最后一页（第 " ++ toString (page - 1) ++ " 页）")
      else
        add_log a "没有找到结果"
    { a' with is_loading_page := false }
  else
    let count := results.length
    let a₁ := { a with current_page := page }
    let a₂ := if count < page_size then { a₁ with total_pages := page } else a₁
    let a₃ := { a₂ with search_cache := cache_page a₂.search_cache page results }
    let a₄ := set_search_results a₃ results keyword
    let a₅ := add_log a₄
      ("第 " ++ toString page ++ " 页，找到 " ++ toString count ++ " 个结果")
    { a₅ with is_loading_page := false }

/-- Completion of a page fetch for `page`: the guarded task body of
`Player::search_page` (src/player.rs lines 416-459), `Ok` branch. -/
def search_page_complete (request_id page page_size : Nat) (keyword : String)
    (results : List SearchResult) (a : App) : App :=
  complete_if_active request_id (search_page_apply page page_size keyword results) a

/-- The guard of `Player::next_page`, src/player.rs lines 361-374: when the
keyword is empty or `current_page >= total_pages` no fetch is attempted and
nothing changes; otherwise page `current_page + 1` is fetched. -/
def next_page_target (a : App) : Option Nat :=
  if a.last_search_keyword.isEmpty ∨ a.total_pages ≤ a.current_page then none
  else some (a.current_page + 1)

/-- AudioBackend::SEARCH_RESULT_BUFFER, src/audio.rs line 53. -/
def SEARCH_RESULT_BUFFER : Nat := 50

/-- The pagination parameters of the yt-dlp invocation built by
`AudioBackend::search`, src/audio.rs lines 134-149: the two computed argument
strings together with the three numbers they are built from. `sp` is the
search-prefix string from the configuration. -/
structure SearchCmd where
  start_index : Nat
  end_index : Nat
  search_count : Nat
  playlist_items_arg : String
  search_query_arg : String
  deriving DecidableEq, Repr

def build_search_cmd (sp : String) (page per_page : Nat)
    (keyword : String) : SearchCmd :=
  let start_index := (page - 1) * per_page + 1
  let end_index := page * per_page
  let search_count := end_index + SEARCH_RESULT_BUFFER
  { start_index := start_index
    end_index := end_index
    search_count := search_count
    playlist_items_arg := toString start_index ++ "-" ++ toString end_index
    search_query_arg := sp ++ toString search_count ++ ":" ++ keyword }

/-- Validity unfolded: an entry is valid exactly when it was cached no later
than `now` and strictly less than `ttl` whole seconds have elapsed. -/
theorem is_cache_valid_iff (ttl now cached_at : Nat) :
    is_cache_valid ttl now cached_at = true ↔
      cached_at ≤ now ∧ now - cached_at < ttl * NANOS_PER_SEC := by
  unfold is_cache_valid
  by_cases h : cached_at ≤ now
  · simp [h, Nat.div_lt_iff_lt_mul (by norm_num [NANOS_PER_SEC] : 0 < NANOS_PER_SEC)]
  · simp [h]

/-- `min_page` returns a key of the map that is a lower bound on all keys. -/
theorem min_page_mem : ∀ (cache : PageCache) (m : Nat), min_page cache = some m →
    (∃ p ∈ cache, p.1 = m) ∧ ∀ p ∈ cache, m ≤ p.1 := by
  intro cache
  induction cache with
  | nil => intro m h; simp [min_page] at h
  | cons p rest ih =>
    intro m h
    cases hr : min_page rest with
    | none =>
      have hrest : rest = [] := by
        cases rest with
        | nil => rfl
        | cons q t =>
          cases h2 : min_page t <;> simp [min_page, h2] at hr
      subst hrest
      simp only [min_page, Option.some.injEq] at h
      subst h
      simp
    | some mr =>
      simp only [min_page, hr, Option.some.injEq] at h
      subst h
      obtain ⟨⟨pm, hpm, hpm1⟩, hmin⟩ := ih mr hr
      constructor
      · rcases le_total p.1 mr with hle | hle
        · exact ⟨p, List.mem_cons_self p rest, by omega⟩
        · exact ⟨pm, List.mem_cons_of_mem p hpm, by omega⟩
      · intro q hq
        rcases List.mem_cons.mp hq with rfl | hq'
        · omega
        · have := hmin q hq'
          omega

/-- `min_page` finds a key on every non-empty map. -/
theorem min_page_isSome (cache : PageCache) (h : cache ≠ []) :
    ∃ m, min_page cache = some m := by
  cases cache with
  | nil => exact absurd rfl h
  | cons p rest =>
    cases hr : min_page rest with
    | none => exact ⟨p.1, by simp [min_page, hr]⟩
    | some mr => exact ⟨min p.1 mr, by simp [min_page, hr]⟩

/-- `HashMap::insert` grows the map by at most one entry. -/
theorem page_insert_length (cache : PageCache) (page : Nat)
    (results : List SearchResult) :
    (page_insert cache page results).length ≤ cache.length + 1 := by
  unfold page_insert
  by_cases h : cache.any (fun p => p.1 == page)
  · simp [h]
  · simp [h]

/-- C3 (for the page cache analogue see cache_page): the stream-cache lookup
at the start of resolve-and-play returns the cached URL exactly when an entry
for the keyword exists whose age is strictly below the ttl (in seconds, i.e.
below ttl·10⁹ nanoseconds; an entry stamped in the future is also treated as
absent, as `duration_since` fails there), and the lookup leaves the map
unchanged. -/
theorem c3_stream_lookup (url_cache_ttl now : Nat) (cache : StreamCache)
    (keyword url : String) :
    ((cache_lookup url_cache_ttl now cache keyword).1 = some url ↔
      ∃ c, cache_find cache keyword = some c ∧ c.url = url ∧
        c.cached_at ≤ now ∧ now - c.cached_at < url_cache_ttl * NANOS_PER_SEC)
  ∧ (cache_lookup url_cache_ttl now cache keyword).2 = cache := by
  refine ⟨?_, rfl⟩
  cases hf : cache_find cache keyword with
  | none => simp [cache_lookup, hf]
  | some c =>
    simp only [cache_lookup, hf, Option.some_bind]
    by_cases hv : is_cache_valid url_cache_ttl now c.cached_at = true
    · have hc := (is_cache_valid_iff _ _ _).mp hv
      rw [if_pos hv]
      constructor
      · intro h
        rw [Option.some.injEq] at h
        exact ⟨c, rfl, h, hc.1, hc.2⟩
      · rintro ⟨c', hc', hurl, -, -⟩
        rw [Option.some.injEq] at hc'
        rw [← hc'] at hurl
        rw [hurl]
    · rw [if_neg hv]
      constructor
      · intro h
        simp at h
      · rintro ⟨c', hc', -, h₁, h₂⟩
        rw [Option.some.injEq] at hc'
        subst hc'
        exact (hv ((is_cache_valid_iff _ _ _).mpr ⟨h₁, h₂⟩)).elim

/-- C7: the page cache is bounded to MAX_CACHE_SIZE = 10 pages: starting from
a map within the bound, `App::cache_page` keeps it within the bound; whenever
the insert pushes the map past the bound, the entry whose page number is
minimal among all resident pages is the one removed; and inserting pages 1
through 11 in order leaves exactly the ten pages 2..11 resident. -/
theorem c7_cache_page (cache : PageCache) (page : Nat)
    (results : List SearchResult) (hcap : cache.length ≤ MAX_CACHE_SIZE) :
    (cache_page cache page results).length ≤ MAX_CACHE_SIZE
  ∧ (MAX_CACHE_SIZE < (page_insert cache page results).length →
      ∃ m, min_page (page_insert cache page results) = some m
        ∧ (∀ p ∈ page_insert cache page results, m ≤ p.1)
        ∧ cache_page cache page results
            = (page_insert cache page results).eraseP (fun p => p.1 == m))
  ∧ ((List.range' 1 11).foldl (fun c p => cache_page c p []) []).map Prod.fst
      = [2, 3, 4, 5, 6, 7, 8, 9, 10, 11] := by
  have hlen := page_insert_length cache page results
  refine ⟨?_, ?_, by decide⟩
  · unfold cache_page
    by_cases hlt : MAX_CACHE_SIZE < (page_insert cache page results).length
    · obtain ⟨m, hm⟩ := min_page_isSome (page_insert cache page results)
        (by intro h; rw [h] at hlt; simp [MAX_CACHE_SIZE] at hlt)
      obtain ⟨⟨pm, hpm, hpm1⟩, _⟩ := min_page_mem _ _ hm
      have herase : ((page_insert cache page results).eraseP
          (fun p => p.1 == m)).length = (page_insert cache page results).length - 1 :=
        List.length_eraseP_of_mem hpm (by simp [hpm1])
      simp only [hlt, if_true, hm]
      omega
    · simp only [hlt, if_false]
      omega
  · intro hlt
    obtain ⟨m, hm⟩ := min_page_isSome (page_insert cache page results)
      (by intro h; rw [h] at hlt; simp [MAX_CACHE_SIZE] at hlt)
    obtain ⟨hmem, hlb⟩ := min_page_mem _ _ hm
    refine ⟨m, hm, hlb, ?_⟩
    simp only [cache_page, hlt, if_true, hm]

/-- C7 witness: a concrete run — one insert into the empty map stays within
the bound, and the 1..11 insertion scenario evicts exactly page 1. -/
theorem c7_cache_page_witness :
    (cache_page [] 1 []).length ≤ MAX_CACHE_SIZE
  ∧ ((List.range' 1 11).foldl (fun c p => cache_page c p []) []).map Prod.fst
      = [2, 3, 4, 5, 6, 7, 8, 9, 10, 11] := by
  have h := c7_cache_page [] 1 [] (by decide)
  exact ⟨h.1, h.2.2⟩

/-- `Iterator::position` only returns indices inside the list. -/
theorem position_lt_length (p : FavoriteItem → Bool) :
    ∀ (l : List FavoriteItem) (i : Nat), position p l = some i → i < l.length := by
  intro l
  induction l with
  | nil => intro i h; simp [position] at h
  | cons x xs ih =>
    intro i h
    by_cases hx : p x = true
    · simp only [position, if_pos hx, Option.some.injEq] at h
      simp only [List.length_cons]
      omega
    · simp only [position, if_neg hx, Option.map_eq_some'] at h
      obtain ⟨j, hj, rfl⟩ := h
      have := ih j hj
      simp only [List.length_cons]
      omega

/-- The element found by `Iterator::position` satisfies the predicate. -/
theorem position_get (p : FavoriteItem → Bool) :
    ∀ (l : List FavoriteItem) (i : Nat), position p l = some i →
      ∀ hi : i < l.length, p (l.get ⟨i, hi⟩) = true := by
  intro l
  induction l with
  | nil => intro i h; simp [position] at h
  | cons x xs ih =>
    intro i h hi
    by_cases hx : p x = true
    · simp only [position, if_pos hx, Option.some.injEq] at h
      subst h
      simpa using hx
    · simp only [position, if_neg hx, Option.map_eq_some'] at h
      obtain ⟨j, hj, rfl⟩ := h
      exact ih j hj (by simpa using hi)

/-- C5: in Sequential or ListLoop mode, with the current song first occurring
at index i of the favorites list, `App::get_next_song` returns the title at
index i+1 when that index exists; at the last index Sequential returns none
while ListLoop returns the title at index 0; and on every non-empty favorites
list in which the current song does not occur, both modes return no next
song. -/
theorem c5_next_sequential (r1 r2 : Nat) (a : App) (i : Nat)
    (hmode : a.play_mode = PlayMode.Sequential ∨ a.play_mode = PlayMode.ListLoop) :
    (position (fun item => item.title == a.current_song) a.favorites = some i →
      (∀ h : i + 1 < a.favorites.length,
          (get_next_song r1 r2 a).1 = some (a.favorites.get ⟨i + 1, h⟩).title)
      ∧ (i + 1 = a.favorites.length →
          (a.play_mode = PlayMode.Sequential → (get_next_song r1 r2 a).1 = none)
        ∧ (a.play_mode = PlayMode.ListLoop →
            ∀ h0 : 0 < a.favorites.length,
              (get_next_song r1 r2 a).1 = some (a.favorites.get ⟨0, h0⟩).title)))
  ∧ (a.favorites ≠ [] →
      position (fun item => item.title == a.current_song) a.favorites = none →
      (get_next_song r1 r2 a).1 = none) := by
  constructor
  · intro hpos
    have hne : a.favorites.isEmpty = false := by
      cases hfav : a.favorites with
      | nil => rw [hfav] at hpos; simp [position] at hpos
      | cons x xs => rfl
    constructor
    · intro h
      rcases hmode with hm | hm <;>
        simp [get_next_song, hm, hne, hpos, h, titleAt,
          List.getElem?_eq_getElem h, List.get_eq_getElem]
    · intro hlast
      have hnotlt : ¬ i + 1 < a.favorites.length := by omega
      have h0 : 0 < a.favorites.length := by omega
      refine ⟨?_, ?_⟩
      · intro hm
        simp [get_next_song, hm, hne, hpos, hnotlt]
      · intro hm h0'
        simp [get_next_song, hm, hne, hpos, hnotlt, titleAt,
          List.getElem?_eq_getElem h0, List.get_eq_getElem]
  · intro hfav hpos
    have hne : a.favorites.isEmpty = false := by
      cases hf : a.favorites with
      | nil => exact absurd hf hfav
      | cons x xs => rfl
    rcases hmode with hm | hm <;> simp [get_next_song, hm, hne, hpos]

/-- C5 witness: favorites [A,B,C] — at B Sequential yields C; at C Sequential
yields none and ListLoop wraps to A; a song absent from favorites yields
none. -/
theorem c5_next_sequential_witness :
    ((position
        (fun item => item.title ==
          ({ initial_app with
              favorites := [⟨"A", "yt"⟩, ⟨"B", "yt"⟩, ⟨"C", "yt"⟩],
              current_song := "B",
              play_mode := PlayMode.Sequential } : App).current_song)
        ([⟨"A", "yt"⟩, ⟨"B", "yt"⟩, ⟨"C", "yt"⟩] : List FavoriteItem) = some 1))
  ∧ (get_next_song 0 0
      { initial_app with
          favorites := [⟨"A", "yt"⟩, ⟨"B", "yt"⟩, ⟨"C", "yt"⟩],
          current_song := "B",
          play_mode := PlayMode.Sequential }).1 = some "C" := by
  have h := c5_next_sequential 0 0
    { initial_app with
        favorites := [⟨"A", "yt"⟩, ⟨"B", "yt"⟩, ⟨"C", "yt"⟩],
        current_song := "B",
        play_mode := PlayMode.Sequential } 1 (Or.inl rfl)
  refine ⟨by decide, ?_⟩
  have h2 := (h.1 (by decide)).1 (by decide)
  simpa using h2

/-- The concrete App used to refute C6's never-the-current-song clause: the
favorites file may contain duplicate titles. -/
def appAA : App :=
  { initial_app with
      favorites := [⟨"A", "yt"⟩, ⟨"A", "yt"⟩],
      current_song := "A" }

/-- C6 counterexample: in Shuffle mode with favorites [A, A] (duplicate
titles, as a favorites file may contain) and current song A, the shift-by-one
draw lands on index 1, whose title equals the current song — so the returned
song can be the current song. -/
theorem c6_counterexample :
    appAA.play_mode = PlayMode.Shuffle
  ∧ 1 < appAA.favorites.length
  ∧ (get_next_song 0 0 appAA).1 = some appAA.current_song := by
  refine ⟨rfl, by decide, by decide⟩

/-- C6 (amended): in Shuffle mode, when the favorites list has more than one
entry and the current song first occurs at index c, the draw r = nanos mod
(N-1) lies in [0, N-1) and the favorite at index r (when r < c) or r+1
(otherwise) is returned; the returned index is therefore never c, and when
the favorites titles are pairwise distinct the returned song is never the
current song. -/
theorem c6_next_shuffle (r1 r2 : Nat) (a : App) (c : Nat)
    (hmode : a.play_mode = PlayMode.Shuffle)
    (hlen : 1 < a.favorites.length)
    (hpos : position (fun item => item.title == a.current_song) a.favorites = some c) :
    ((get_next_song r1 r2 a).1
        = titleAt a.favorites
            (if r2 % (a.favorites.length - 1) < c then r2 % (a.favorites.length - 1)
             else r2 % (a.favorites.length - 1) + 1))
  ∧ r2 % (a.favorites.length - 1) < a.favorites.length - 1
  ∧ (if r2 % (a.favorites.length - 1) < c then r2 % (a.favorites.length - 1)
     else r2 % (a.favorites.length - 1) + 1) ≠ c
  ∧ (if r2 % (a.favorites.length - 1) < c then r2 % (a.favorites.length - 1)
     else r2 % (a.favorites.length - 1) + 1) < a.favorites.length
  ∧ (a.favorites.Pairwise (fun x y => x.title ≠ y.title) →
      (get_next_song r1 r2 a).1 ≠ some a.current_song) := by
  have hc := position_lt_length _ _ _ hpos
  have hne : a.favorites.isEmpty = false := by
    cases hf : a.favorites with
    | nil => rw [hf] at hc; simp at hc
    | cons x xs => rfl
  have hne1 : (a.favorites.length == 1) = false := by
    simp only [beq_eq_false_iff_ne, ne_eq]
    omega
  have hj : r2 % (a.favorites.length - 1) < a.favorites.length - 1 :=
    Nat.mod_lt _ (by omega)
  have harm : (get_next_song r1 r2 a).1
      = titleAt a.favorites
          (if c ≤ r2 % (a.favorites.length - 1) then r2 % (a.favorites.length - 1) + 1
           else r2 % (a.favorites.length - 1)) := by
    simp [get_next_song, hmode, hne, hne1, hpos, simple_random]
  have hiff : (if c ≤ r2 % (a.favorites.length - 1) then r2 % (a.favorites.length - 1) + 1
       else r2 % (a.favorites.length - 1))
      = (if r2 % (a.favorites.length - 1) < c then r2 % (a.favorites.length - 1)
         else r2 % (a.favorites.length - 1) + 1) := by
    by_cases hcle : c ≤ r2 % (a.favorites.length - 1)
    · rw [if_pos hcle, if_neg (by omega)]
    · rw [if_neg hcle, if_pos (by omega)]
  refine ⟨harm.trans (by rw [hiff]), hj, by by_cases hcle : r2 % (a.favorites.length - 1) < c <;>
      simp [hcle] <;> omega, by by_cases hcle : r2 % (a.favorites.length - 1) < c <;>
      simp [hcle] <;> omega, ?_⟩
  intro hpair habs
  rw [harm.trans (by rw [hiff])] at habs
  set j := r2 % (a.favorites.length - 1) with hjdef
  have hidx : (if j < c then j else j + 1) < a.favorites.length := by
    by_cases hcle : j < c <;> simp [hcle] <;> omega
  have hneq : (if j < c then j else j + 1) ≠ c := by
    by_cases hcle : j < c <;> simp [hcle] <;> omega
  rw [titleAt, List.getElem?_eq_getElem hidx, Option.map_some'] at habs
  rw [Option.some.injEq] at habs
  have hcur : a.favorites[c].title = a.current_song := by
    have := position_get _ _ _ hpos hc
    rw [List.get_eq_getElem] at this
    simpa using this
  have hdist := List.pairwise_iff_get.mp hpair
  have hcontra : a.favorites[if j < c then j else j + 1].title
      = a.favorites[c].title := by rw [habs, hcur]
  rcases Nat.lt_or_ge (if j < c then j else j + 1) c with hlt | hge
  · refine hdist ⟨_, hidx⟩ ⟨c, hc⟩ hlt ?_
    simpa using hcontra
  · have hgt : c < (if j < c then j else j + 1) := by omega
    refine hdist ⟨c, hc⟩ ⟨_, hidx⟩ hgt ?_
    simpa using hcontra.symm

/-- The concrete App for C6's witness: favorites [A, B], current song A. -/
def appAB : App :=
  { initial_app with
      favorites := [⟨"A", "yt"⟩, ⟨"B", "yt"⟩],
      current_song := "A" }

/-- C6 witness: with favorites [A, B] and current song A, the shuffle draw
always lands on B. -/
theorem c6_next_shuffle_witness :
    (get_next_song 3 4 appAB).1 = some "B"
  ∧ (get_next_song 3 4 appAB).1 ≠ some appAB.current_song := by
  have h := c6_next_shuffle 3 4 appAB 0 rfl (by decide) (by decide)
  constructor
  · rw [h.1]
    decide
  · exact h.2.2.2.2 (by decide)

/-- C2 counterexample: at listener start (src/audio.rs lines 342-346) the
mirror's pauseState becomes Playing, not Stopped; at listener termination
(lines 407-409) the progress field is left unchanged rather than reset to 0.
Shown on the concrete mirror {progress 1, Paused, volume 100}. -/
theorem c2_counterexample :
    (listener_start_reset
        { progress := 1, pause_state := PauseState.Paused, volume := 100 }).pause_state
      ≠ PauseState.Stopped
  ∧ (listener_exit_reset
        { progress := 1, pause_state := PauseState.Paused, volume := 100 }).progress
      ≠ 0 := by
  constructor
  · simp [listener_start_reset]
  · simp [listener_exit_reset]

/-- C2 (amended): when the listener task starts, the mirror is set to
progress 0 and pauseState Playing with volume unchanged; when the listener
task terminates (end-of-stream, connection failure, or task exit), only
pauseState is forced to Stopped, with progress and volume unchanged; the
explicit quit/shutdown path resets the mirror to progress 0 and pauseState
Stopped with volume unchanged. -/
theorem c2_mirror_resets (s : PlaybackState) :
    listener_start_reset s
      = { progress := 0, pause_state := PauseState.Playing, volume := s.volume }
  ∧ listener_exit_reset s
      = { progress := s.progress, pause_state := PauseState.Stopped, volume := s.volume }
  ∧ quit_reset s
      = { progress := 0, pause_state := PauseState.Stopped, volume := s.volume } :=
  ⟨rfl, rfl, rfl⟩

/-- C9: for every page P ≥ 1 and page size S, the yt-dlp invocation built by
`AudioBackend::search` requests the playlist-item range from (P-1)*S+1 to
P*S (a range of exactly S items) and asks the search prefix for
P*S + SEARCH_RESULT_BUFFER results, where the buffer is the fixed constant
50 beyond the range's upper bound. -/
theorem c9_search_pagination (sp keyword : String) (page per_page : Nat)
    (hpage : 1 ≤ page) :
    (build_search_cmd sp page per_page keyword).start_index
      = (page - 1) * per_page + 1
  ∧ (build_search_cmd sp page per_page keyword).end_index = page * per_page
  ∧ (build_search_cmd sp page per_page keyword).search_count
      = page * per_page + SEARCH_RESULT_BUFFER
  ∧ SEARCH_RESULT_BUFFER = 50
  ∧ (build_search_cmd sp page per_page keyword).start_index + per_page
      = (build_search_cmd sp page per_page keyword).end_index + 1
  ∧ (build_search_cmd sp page per_page keyword).playlist_items_arg
      = toString ((page - 1) * per_page + 1) ++ "-" ++ toString (page * per_page)
  ∧ (build_search_cmd sp page per_page keyword).search_query_arg
      = sp ++ toString (page * per_page + 50) ++ ":" ++ keyword := by
  obtain ⟨q, rfl⟩ : ∃ q, page = q + 1 := ⟨page - 1, by omega⟩
  refine ⟨rfl, rfl, rfl, rfl, ?_, rfl, rfl⟩
  simp only [build_search_cmd, Nat.add_sub_cancel, Nat.succ_mul]
  ring

/-- C9 witness: page 2 with page size 15 requests items 16-30 and asks for 80
results. -/
theorem c9_search_pagination_witness :
    (build_search_cmd "ytsearch" 2 15 "lofi").start_index = 16
  ∧ (build_search_cmd "ytsearch" 2 15 "lofi").end_index = 30
  ∧ (build_search_cmd "ytsearch" 2 15 "lofi").search_count = 80 := by
  have h := c9_search_pagination "ytsearch" "lofi" 2 15 (by norm_num)
  refine ⟨?_, ?_, ?_⟩
  · rw [h.1]
  · rw [h.2.1]
  · rw [h.2.2.1]; rfl

/-- C10: `App::add_log` silently drops a message equal to the most recently
stored log line; starting from a queue of at most 50 lines the queue still
holds at most 50 lines after the call; and when the queue is full (50 lines)
and the message is actually stored, the oldest line is removed, leaving the
tail of the appended queue. -/
theorem c10_add_log (a : App) (message : String) (hlen : a.logs.length ≤ 50) :
    (a.logs.getLast? = some message → add_log a message = a)
  ∧ (add_log a message).logs.length ≤ 50
  ∧ (a.logs.getLast? ≠ some message → a.logs.length = 50 →
      (add_log a message).logs = (a.logs ++ [message]).tail) := by
  refine ⟨?_, ?_, ?_⟩
  · intro h
    simp [add_log, h]
  · by_cases h : a.logs.getLast? = some message
    · simpa [add_log, h] using hlen
    · by_cases h50 : 50 < a.logs.length + 1
      · simp [add_log, h, h50, List.length_tail]
        omega
      · simp [add_log, h, h50]
        omega
  · intro h h50
    simp [add_log, h, h50]

/-- C10 witness: on a concrete one-line queue the duplicate is dropped, the
bound holds, and a full 50-line queue evicts its oldest line. -/
theorem c10_add_log_witness :
    (initial_app.logs.length ≤ 50)
  ∧ ((initial_app.logs.getLast? = some "应用启动" →
        add_log initial_app "应用启动" = initial_app)
     ∧ (add_log initial_app "应用启动").logs.length ≤ 50
     ∧ (initial_app.logs.getLast? ≠ some "应用启动" → initial_app.logs.length = 50 →
        (add_log initial_app "应用启动").logs
          = (initial_app.logs ++ ["应用启动"]).tail)) :=
  ⟨by decide, c10_add_log initial_app "应用启动" (by decide)⟩

/-- After `n` begin_async_request calls from a fresh App, both counters equal
`min n u64::MAX` (the saturating counter). -/
theorem run_begins_ids (n : Nat) :
    (run_begins initial_app n).active_request_id = min n U64_MAX
  ∧ (run_begins initial_app n).request_seq = min n U64_MAX := by
  induction n with
  | zero =>
    constructor <;> simp [run_begins, initial_app, app_new]
  | succ n ih =>
    constructor
    · show min ((run_begins initial_app n).request_seq + 1) U64_MAX
        = min (n + 1) U64_MAX
      rw [ih.2]
      omega
    · show min ((run_begins initial_app n).request_seq + 1) U64_MAX
        = min (n + 1) U64_MAX
      rw [ih.2]
      omega

/-- The ids issued by `n` begin_async_request calls from a fresh App are
exactly `min (k+1) u64::MAX` for `k < n`. -/
theorem issued_ids_mem (n : Nat) :
    ∀ x, x ∈ issued_ids initial_app n ↔ ∃ k, k < n ∧ x = min (k + 1) U64_MAX := by
  induction n with
  | zero => simp [issued_ids]
  | succ n ih =>
    intro x
    simp only [issued_ids, List.mem_append, List.mem_singleton, ih]
    constructor
    · rintro (⟨k, hk, rfl⟩ | h)
      · exact ⟨k, by omega, rfl⟩
      · refine ⟨n, by omega, ?_⟩
        rw [h]
        show min ((run_begins initial_app n).request_seq + 1) U64_MAX
          = min (n + 1) U64_MAX
        rw [(run_begins_ids n).2]
        omega
    · rintro ⟨k, hk, rfl⟩
      by_cases hkn : k < n
      · exact Or.inl ⟨k, hkn, rfl⟩
      · have hk2 : k = n := by omega
        subst hk2
        refine Or.inr ?_
        show min (k + 1) U64_MAX
          = min ((run_begins initial_app k).request_seq + 1) U64_MAX
        rw [(run_begins_ids k).2]
        omega

/-- C1: for every sequence of begin_async_request calls, the active request
id is one of the issued ids and an upper bound on all of them (it is the
numerically highest id issued so far); a task completing under the guard
used by every asynchronous task body leaves the App completely unchanged
(status, search results, page counters, logs, everything) when its captured
id is not the active one, and applies its mutation exactly when its captured
id is the active one. -/
theorem c1_request_sequencer (n request_id : Nat) (f : App → App)
    (hid : request_id ∈ issued_ids initial_app n) :
    ((run_begins initial_app n).active_request_id ∈ issued_ids initial_app n)
  ∧ (∀ j ∈ issued_ids initial_app n, j ≤ (run_begins initial_app n).active_request_id)
  ∧ (request_id ≠ (run_begins initial_app n).active_request_id →
      complete_if_active request_id f (run_begins initial_app n)
        = run_begins initial_app n)
  ∧ (request_id = (run_begins initial_app n).active_request_id →
      complete_if_active request_id f (run_begins initial_app n)
        = f (run_begins initial_app n)) := by
  have hact := (run_begins_ids n).1
  have hn : 0 < n := by
    rcases Nat.eq_zero_or_pos n with rfl | h
    · simp [issued_ids] at hid
    · exact h
  refine ⟨?_, ?_, ?_, ?_⟩
  · rw [hact, issued_ids_mem]
    exact ⟨n - 1, by omega, by rw [Nat.sub_add_cancel hn]⟩
  · intro j hj
    rw [issued_ids_mem] at hj
    obtain ⟨k, hk, rfl⟩ := hj
    rw [hact]
    omega
  · intro hne
    have hfalse : is_active_request (run_begins initial_app n) request_id = false := by
      simp only [is_active_request, beq_eq_false_iff_ne, ne_eq]
      exact fun h => hne h.symm
    simp [complete_if_active, hfalse]
  · intro heq
    have htrue : is_active_request (run_begins initial_app n) request_id = true := by
      simp only [is_active_request, beq_iff_eq]
      exact heq.symm
    simp [complete_if_active, htrue]

/-- C1 witness: after two begins the active id is 2; a task that captured
id 1 is a no-op on completion. -/
theorem c1_request_sequencer_witness :
    (1 ∈ issued_ids initial_app 2)
  ∧ complete_if_active 1 (fun a => { a with status := PlayerStatus.Searching })
      (run_begins initial_app 2) = run_begins initial_app 2 := by
  have h := c1_request_sequencer 2 1
    (fun a => { a with status := PlayerStatus.Searching }) (by decide)
  exact ⟨by decide, h.2.2.1 (by decide)⟩

/-- `min_entry` returns its argument or a list element, with minimal
`cached_at` among all of them. -/
theorem min_entry_spec :
    ∀ (l : StreamCache) (p : String × CachedSong),
      (min_entry p l = p ∨ min_entry p l ∈ l)
    ∧ (min_entry p l).2.cached_at ≤ p.2.cached_at
    ∧ ∀ q ∈ l, (min_entry p l).2.cached_at ≤ q.2.cached_at := by
  intro l
  induction l with
  | nil =>
    intro p
    exact ⟨Or.inl rfl, le_refl _, by simp⟩
  | cons q rest ih =>
    intro p
    by_cases hq : q.2.cached_at < p.2.cached_at
    · obtain ⟨hmem, hle, hall⟩ := ih q
      have he : min_entry p (q :: rest) = min_entry q rest := by
        simp only [min_entry, if_pos hq]
      rw [he]
      refine ⟨?_, by omega, ?_⟩
      · rcases hmem with h | h
        · exact Or.inr (by rw [h]; exact List.mem_cons_self q rest)
        · exact Or.inr (List.mem_cons_of_mem q h)
      · intro x hx
        rcases List.mem_cons.mp hx with rfl | hx'
        · exact hle
        · exact hall x hx'
    · obtain ⟨hmem, hle, hall⟩ := ih p
      have he : min_entry p (q :: rest) = min_entry p rest := by
        simp only [min_entry, if_neg hq]
      rw [he]
      refine ⟨?_, hle, ?_⟩
      · rcases hmem with h | h
        · exact Or.inl h
        · exact Or.inr (List.mem_cons_of_mem q h)
      · intro x hx
        rcases List.mem_cons.mp hx with rfl | hx'
        · omega
        · exact hall x hx'

/-- `min_by_key` (modelled by `oldest_entry`) returns a resident entry with
minimal `cached_at`. -/
theorem oldest_entry_spec (cache : StreamCache) (q : String × CachedSong)
    (h : oldest_entry cache = some q) :
    q ∈ cache ∧ ∀ p ∈ cache, q.2.cached_at ≤ p.2.cached_at := by
  cases cache with
  | nil => simp [oldest_entry] at h
  | cons p rest =>
    simp only [oldest_entry, Option.some.injEq] at h
    subst h
    obtain ⟨hmem, hle, hall⟩ := min_entry_spec rest p
    constructor
    · rcases hmem with h | h
      · rw [h]; exact List.mem_cons_self p rest
      · exact List.mem_cons_of_mem p h
    · intro x hx
      rcases List.mem_cons.mp hx with rfl | hx'
      · exact hle
      · exact hall x hx'

/-- `oldest_entry` finds an entry on every non-empty map. -/
theorem oldest_entry_isSome (cache : StreamCache) (h : cache ≠ []) :
    ∃ q, oldest_entry cache = some q := by
  cases cache with
  | nil => exact absurd rfl h
  | cons p rest => exact ⟨min_entry p rest, rfl⟩

/-- `HashMap::insert` grows the stream cache by at most one entry. -/
theorem cache_insert_entry_length (cache : StreamCache) (keyword : String)
    (song : CachedSong) :
    (cache_insert_entry cache keyword song).length ≤ cache.length + 1 := by
  unfold cache_insert_entry
  by_cases h : cache.any (fun p => p.1 == keyword)
  · simp [h]
  · simp [h]

/-- C4: the stream-cache write step keeps the cache within its configured
capacity (starting from a cache within the bound); when a still-valid entry
for the keyword already exists, no write and no eviction occur (the cache is
returned unchanged); and when the insert pushes the cache past capacity,
exactly one entry is removed — the resident entry with minimal (oldest)
`cached_at` timestamp. -/
theorem c4_cache_write (cap ttl now : Nat) (cache : StreamCache)
    (keyword url : String) (hcap : cache.length ≤ cap) :
    (cache_write cap ttl now cache keyword url).length ≤ cap
  ∧ (∀ c, cache_find cache keyword = some c →
      is_cache_valid ttl now c.cached_at = true →
      cache_write cap ttl now cache keyword url = cache)
  ∧ ((cache_find cache keyword).all
        (fun c => !(is_cache_valid ttl now c.cached_at)) = true →
      cap < (cache_insert_entry cache keyword { url := url, cached_at := now }).length →
      ∃ q, oldest_entry (cache_insert_entry cache keyword
              { url := url, cached_at := now }) = some q
        ∧ q ∈ cache_insert_entry cache keyword { url := url, cached_at := now }
        ∧ (∀ p ∈ cache_insert_entry cache keyword { url := url, cached_at := now },
            q.2.cached_at ≤ p.2.cached_at)
        ∧ cache_write cap ttl now cache keyword url
            = (cache_insert_entry cache keyword
                { url := url, cached_at := now }).eraseP (fun p => p.1 == q.1)) := by
  have hlen := cache_insert_entry_length cache keyword { url := url, cached_at := now }
  refine ⟨?_, ?_, ?_⟩
  · simp only [cache_write]
    by_cases hchk : (cache_find cache keyword).all
        (fun c => !(is_cache_valid ttl now c.cached_at)) = true
    · rw [if_pos hchk]
      by_cases hlt : cap <
          (cache_insert_entry cache keyword { url := url, cached_at := now }).length
      · obtain ⟨q, hq⟩ := oldest_entry_isSome
          (cache_insert_entry cache keyword { url := url, cached_at := now })
          (by intro hnil; rw [hnil] at hlt; simp at hlt)
        obtain ⟨hqmem, hqall⟩ := oldest_entry_spec _ _ hq
        have he := List.length_eraseP_of_mem hqmem
          (p := fun p => p.1 == q.1) (by simp)
        rw [if_pos hlt, hq]
        show ((cache_insert_entry cache keyword
            { url := url, cached_at := now }).eraseP (fun p => p.1 == q.1)).length ≤ cap
        omega
      · rw [if_neg hlt]
        omega
    · rw [if_neg hchk]
      exact hcap
  · intro c hc hv
    have hchk : (cache_find cache keyword).all
        (fun c => !(is_cache_valid ttl now c.cached_at)) = false := by
      rw [hc]
      simp [hv]
    simp [cache_write, hchk]
  · intro hchk hlt
    obtain ⟨q, hq⟩ := oldest_entry_isSome
      (cache_insert_entry cache keyword { url := url, cached_at := now })
      (by intro hnil; rw [hnil] at hlt; simp at hlt)
    obtain ⟨hqmem, hqall⟩ := oldest_entry_spec _ _ hq
    refine ⟨q, hq, hqmem, hqall, ?_⟩
    simp only [cache_write]
    rw [if_pos hchk, if_pos hlt, hq]

/-- A one-entry stream cache used by C4's witness. -/
def smallStreamCache : StreamCache := [("a", { url := "u0", cached_at := 0 })]

/-- C4 witness: with capacity 1, inserting a new keyword stays within the
bound (the old entry is evicted), and re-inserting a keyword whose entry is
still valid changes nothing. -/
theorem c4_cache_write_witness :
    (cache_write 1 100 5 smallStreamCache "b" "u1").length ≤ 1
  ∧ cache_write 1 100 5 smallStreamCache "a" "u1" = smallStreamCache := by
  have h1 := c4_cache_write 1 100 5 smallStreamCache "b" "u1" (by decide)
  have h2 := c4_cache_write 1 100 5 smallStreamCache "a" "u1" (by decide)
  exact ⟨h1.1, h2.2.1 { url := "u0", cached_at := 0 } (by decide) (by decide)⟩

/-- `add_log` never touches `total_pages`. -/
theorem add_log_total_pages (a : App) (m : String) :
    (add_log a m).total_pages = a.total_pages := by
  simp only [add_log]
  split
  · rfl
  · split <;> rfl

/-- `set_search_results` never touches `total_pages`. -/
theorem set_search_results_total_pages (a : App) (results : List SearchResult)
    (keyword : String) :
    (set_search_results a results keyword).total_pages = a.total_pages := by
  simp only [set_search_results]
  split <;> rfl

/-- C8: when a page fetch for page P completes as the current request with a
non-empty result list shorter than the page size, total_pages is set to P;
when it completes with an empty list and P > 1, total_pages is set to P-1;
and `next_page` attempts no fetch (and hence no state change) whenever
current_page ≥ total_pages. -/
theorem c8_page_termination (a : App) (request_id page page_size : Nat)
    (keyword : String) (results : List SearchResult)
    (hactive : is_active_request a request_id = true) :
    (results ≠ [] → results.length < page_size →
      (search_page_complete request_id page page_size keyword results a).total_pages
        = page)
  ∧ (results = [] → 1 < page →
      (search_page_complete request_id page page_size keyword results a).total_pages
        = page - 1)
  ∧ (a.total_pages ≤ a.current_page → next_page_target a = none) := by
  refine ⟨?_, ?_, ?_⟩
  · intro hres hlt
    have hne : results.isEmpty = false := by
      cases results with
      | nil => exact absurd rfl hres
      | cons x xs => rfl
    simp only [search_page_complete, complete_if_active, hactive, if_true]
    simp [search_page_apply, hne, hlt, add_log_total_pages,
      set_search_results_total_pages]
  · intro hres hpage
    subst hres
    simp only [search_page_complete, complete_if_active, hactive, if_true]
    simp [search_page_apply, hpage, add_log_total_pages]
  · intro h
    unfold next_page_target
    rw [if_pos (Or.inr h)]

/-- C8 witness: a one-result page 2 with page size 15 sets total_pages to 2,
and a fresh App (current_page = total_pages = 1) attempts no next-page
fetch. -/
theorem c8_page_termination_witness :
    (search_page_complete 0 2 15 "lofi" [{ title := "t" }] initial_app).total_pages = 2
  ∧ next_page_target initial_app = none := by
  have h := c8_page_termination initial_app 0 2 15 "lofi" [{ title := "t" }]
    (by decide)
  exact ⟨h.1 (by simp) (by norm_num), h.2.2 (by decide)⟩

end Maboroshi
